import Mathlib

/-!
Shallow embedding of the cached read-through items API of
`backend/src/routes/items.js` (Express handlers over a PostgreSQL `items`
table and a Redis cache), together with proofs about its cache-aside
behaviour.

Modelling conventions:
* The `items` table is a list of rows in insertion order; `SERIAL` ids are
  assigned from a monotone counter, `created_at`/`updated_at` timestamps come
  from an explicit clock argument (`CURRENT_TIMESTAMP` / `NOW()`).
* Redis is an association list from string keys to (ttl, value) pairs; the
  serialized JSON payloads are modelled by the inductive `CVal` (a page
  `{count, data}` or a single row).  Each Redis command may fail with a
  transient connectivity error; a single per-request boolean `ok` says
  whether the cache is reachable during that request.
* Each Express handler body runs inside one `try/catch`; any error thrown by
  a `pool.query` or `redisClient` call jumps to the catch, which answers
  HTTP 500, keeping all state changes already made.  The handlers below are
  written in explicit state-passing style to mirror exactly that.
-/

namespace ItemsApi

/-- A row of the `items` table (`id SERIAL PRIMARY KEY, name, description,
created_at, updated_at`). -/
structure Item where
  id : Nat
  name : String
  description : Option String
  created_at : Nat
  updated_at : Nat
deriving Repr, DecidableEq

/-- The authoritative store: the `items` table in insertion order plus the
`SERIAL` sequence counter. -/
structure Db where
  rows : List Item
  nextId : Nat
deriving Repr, DecidableEq

/-- A cached JSON payload: either a listing page `{count, data}` (stored under
`items:<limit>:<offset>`) or a single serialized row (stored under
`item:<id>`). -/
inductive CVal where
  | page (count : Nat) (data : List Item)
  | row (it : Item)
deriving Repr, DecidableEq

/-- The Redis keyspace: an association list from keys to (ttl seconds, value).
Keys are unique by construction (`cacheSet` replaces). -/
structure Cache where
  entries : List (String × Nat × CVal)
deriving Repr, DecidableEq

/-- Transient cache connectivity failure (the rejection of a `redisClient`
call). -/
inductive CacheErr where
  | unavailable
deriving Repr, DecidableEq

/-- Failure of an authoritative-store query (`pool.query` rejecting; in
particular PostgreSQL rejects a negative `LIMIT` or `OFFSET`). -/
inductive StoreErr where
  | queryFailed
deriving Repr, DecidableEq

/-- The listing cache key, `items:${limit}:${offset}`. -/
def listKey (limit offset : Int) : String :=
  "items:" ++ toString limit ++ ":" ++ toString offset

/-- The point cache key, `item:${id}`. -/
def itemKey (id : Nat) : String :=
  "item:" ++ toString id

/-- The Redis glob pattern `items:*` used for bulk listing invalidation: it
matches exactly the keys that start with the literal prefix `items:`. -/
def matchesListGlob (k : String) : Bool :=
  "items:".data.isPrefixOf k.data

/-- Lookup of a key in the cache keyspace (Redis `GET`, without the
connectivity wrapper). -/
def cacheLookup (c : Cache) (k : String) : Option CVal :=
  match c.entries.find? (fun e => e.1 == k) with
  | some e => some e.2.2
  | none => none

/-- Redis `SETEX key ttl value`: stores `v` under `k`, replacing any previous
binding. -/
def cacheSet (c : Cache) (k : String) (ttl : Nat) (v : CVal) : Cache :=
  ⟨(k, ttl, v) :: c.entries.filter (fun e => ¬ (e.1 = k))⟩

/-- Redis `DEL key`. -/
def cacheDel (c : Cache) (k : String) : Cache :=
  ⟨c.entries.filter (fun e => ¬ (e.1 = k))⟩

/-- Redis `DEL key₁ … keyₙ` over an explicit key list. -/
def cacheDelAll (c : Cache) (ks : List String) : Cache :=
  ⟨c.entries.filter (fun e => ¬ (e.1 ∈ ks))⟩

/-- Redis `KEYS items:*`: the keys of the current keyspace matching the
listing glob. -/
def cacheKeysMatching (c : Cache) : List String :=
  (c.entries.filter (fun e => matchesListGlob e.1)).map (fun e => e.1)

/-- Redis `GET` as seen through the client: rejects when the cache is
unreachable. -/
def rGet (ok : Bool) (c : Cache) (k : String) : Except CacheErr (Option CVal) :=
  if ok then .ok (cacheLookup c k) else .error .unavailable

/-- Redis `SETEX` as seen through the client. -/
def rSetEx (ok : Bool) (c : Cache) (k : String) (ttl : Nat) (v : CVal) :
    Except CacheErr Cache :=
  if ok then .ok (cacheSet c k ttl v) else .error .unavailable

/-- Redis `DEL` of one key as seen through the client. -/
def rDel (ok : Bool) (c : Cache) (k : String) : Except CacheErr Cache :=
  if ok then .ok (cacheDel c k) else .error .unavailable

/-- Redis `KEYS items:*` as seen through the client. -/
def rKeys (ok : Bool) (c : Cache) : Except CacheErr (List String) :=
  if ok then .ok (cacheKeysMatching c) else .error .unavailable

/-- Redis `DEL` of a key list as seen through the client. -/
def rDelAll (ok : Bool) (c : Cache) (ks : List String) : Except CacheErr Cache :=
  if ok then .ok (cacheDelAll c ks) else .error .unavailable

/-! ### Authoritative-store queries -/

/-- Insertion of `x` into a list already ordered newest-first: `x` is placed
before the first element strictly older than it, hence after every element at
least as new — so equal timestamps keep their input order (stable). -/
def insertByCreated (x : Item) : List Item → List Item
  | [] => [x]
  | h :: t => if h.created_at ≤ x.created_at then x :: h :: t
              else h :: insertByCreated x t

/-- The result order of `SELECT * FROM items ORDER BY created_at DESC`: a
stable sort of the table rows (which are in insertion order) newest-first. -/
def orderByCreatedDesc : List Item → List Item
  | [] => []
  | h :: t => insertByCreated h (orderByCreatedDesc t)

/-- `SELECT COUNT(*) FROM items`. -/
def countAll (db : Db) : Nat :=
  db.rows.length

/-- `SELECT * FROM items ORDER BY created_at DESC LIMIT $1 OFFSET $2`.
PostgreSQL rejects a negative `LIMIT` or `OFFSET` with an error. -/
def selectPage (db : Db) (limit offset : Int) : Except StoreErr (List Item) :=
  if limit < 0 ∨ offset < 0 then .error .queryFailed
  else .ok (((orderByCreatedDesc db.rows).drop offset.toNat).take limit.toNat)

/-- `SELECT * FROM items WHERE id = $1` (at most one row: `id` is the primary
key). -/
def selectById (db : Db) (id : Nat) : Option Item :=
  db.rows.find? (fun r => r.id == id)

/-- `INSERT INTO items (name, description) VALUES ($1, $2) RETURNING *`:
assigns the next `SERIAL` id and sets both timestamps to the current clock. -/
def insertRow (db : Db) (name : String) (descr : Option String) (now : Nat) :
    Item × Db :=
  let it : Item := ⟨db.nextId, name, descr, now, now⟩
  (it, ⟨db.rows ++ [it], db.nextId + 1⟩)

/-- `UPDATE items SET name = $1, description = $2, updated_at = NOW()
WHERE id = $3 RETURNING *`: `none` when no row matches. -/
def updateRow (db : Db) (id : Nat) (name : String) (descr : Option String)
    (now : Nat) : Option Item × Db :=
  match db.rows.find? (fun r => r.id == id) with
  | none => (none, db)
  | some old =>
    let it : Item := ⟨old.id, name, descr, old.created_at, now⟩
    (some it, ⟨db.rows.map (fun r => if r.id = id then it else r), db.nextId⟩)

/-- `DELETE FROM items WHERE id = $1 RETURNING *`: `none` when no row
matches. -/
def deleteRow (db : Db) (id : Nat) : Option Item × Db :=
  match db.rows.find? (fun r => r.id == id) with
  | none => (none, db)
  | some old => (some old, ⟨db.rows.filter (fun r => ¬ (r.id = id)), db.nextId⟩)

/-! ### Request-level helpers -/

/-- JavaScript `a || d` over an already-`parseInt`-ed query parameter:
`none` stands for a missing or unparsable (`NaN`) parameter, and the numeric
value `0` is falsy, so both fall back to the default. -/
def jsOr (q : Option Int) (d : Int) : Int :=
  match q with
  | none => d
  | some v => if v = 0 then d else v

/-- `Math.min(parseInt(req.query.limit) || 50, 100)`. -/
def normLimit (q : Option Int) : Int :=
  min (jsOr q 50) 100

/-- `parseInt(req.query.offset) || 0`. -/
def normOffset (q : Option Int) : Int :=
  jsOr q 0

/-- The whitespace trimming performed by the `trim()` sanitizer of
express-validator on both ends of a field. -/
def jsTrim (s : String) : String :=
  ⟨((s.data.dropWhile Char.isWhitespace).reverse.dropWhile
      Char.isWhitespace).reverse⟩

/-- The validator chain of the create/update handlers:
`body('name').trim().notEmpty().isLength({ max: 255 })` and
`body('description').optional().trim().isLength({ max: 1000 })`.
Returns the sanitized `(name, description)` pair when validation passes. -/
def validateBody (nameQ descQ : Option String) :
    Option (String × Option String) :=
  match nameQ with
  | none => none
  | some s =>
    let n := jsTrim s
    if n = "" then none
    else if 255 < n.length then none
    else
      match descQ with
      | none => some (n, none)
      | some d0 =>
        let d := jsTrim d0
        if 1000 < d.length then none else some (n, some d)

/-- Provenance tag of a read answer (`source` field of the listing
response). -/
inductive Source where
  | cache
  | database
deriving Repr, DecidableEq

/-- The JSON responses the items router can send. `listOk` is the listing 200
body `{source, count, data}`; `itemOk` is the point-read 200 body — the bare
row, with no source field; `badShape` marks a cached value whose shape does
not fit the key family it was found under (never produced by this router's
own writes). -/
inductive Resp where
  | listOk (source : Source) (count : Nat) (data : List Item)
  | itemOk (it : Item)
  | createdOk (it : Item)
  | updateOk (it : Item)
  | deleteOk (it : Item)
  | notFound
  | validationFailed
  | serverError
  | badShape
deriving Repr, DecidableEq

/-- The provenance tag carried by a response, when it carries one: only the
listing success body has a `source` field. -/
def respSource : Resp → Option Source
  | .listOk s _ _ => some s
  | _ => none

/-- Whether a response is an HTTP 2xx success of the items router. -/
def isSuccess : Resp → Bool
  | .listOk _ _ _ => true
  | .itemOk _ => true
  | .createdOk _ => true
  | .updateOk _ => true
  | .deleteOk _ => true
  | _ => false

/-- The combined external state a request sees: the `items` table and the
Redis keyspace. -/
structure World where
  db : Db
  cache : Cache
deriving Repr, DecidableEq

/-! ### The five route handlers

Each handler takes the transient cache reachability `ok` for this request
and returns the HTTP response together with the state left behind.  Any
rejected collaborator call jumps to the handler's `catch`, which answers
`serverError` (HTTP 500) while keeping every state change already made. -/

/-- `router.get('/')` — the listing read. -/
def getItems (ok : Bool) (w : World) (limitQ offsetQ : Option Int) :
    Resp × World :=
  let limit := normLimit limitQ
  let offset := normOffset offsetQ
  let key := listKey limit offset
  match rGet ok w.cache key with
  | .error _ => (.serverError, w)
  | .ok (some (.page c d)) => (.listOk .cache c d, w)
  | .ok (some (.row _)) => (.badShape, w)
  | .ok none =>
    let count := countAll w.db
    match selectPage w.db limit offset with
    | .error _ => (.serverError, w)
    | .ok data =>
      match rSetEx ok w.cache key 60 (.page count data) with
      | .error _ => (.serverError, w)
      | .ok c1 => (.listOk .database count data, { w with cache := c1 })

/-- `router.get('/:id')` — the point read (`param('id').isInt({ min: 1 })`
rejects a non-positive id before the handler body runs). -/
def getItemById (ok : Bool) (w : World) (id : Nat) : Resp × World :=
  if id < 1 then (.validationFailed, w)
  else
    match rGet ok w.cache (itemKey id) with
    | .error _ => (.serverError, w)
    | .ok (some (.row it)) => (.itemOk it, w)
    | .ok (some (.page _ _)) => (.badShape, w)
    | .ok none =>
      match selectById w.db id with
      | none => (.notFound, w)
      | some it =>
        match rSetEx ok w.cache (itemKey id) 300 (.row it) with
        | .error _ => (.serverError, w)
        | .ok c1 => (.itemOk it, { w with cache := c1 })

/-- `router.post('/')` — create.  Validation runs first; the insert commits
before the listing-cache invalidation, so a failed invalidation leaves the
new row in the store but answers 500. -/
def createItem (ok : Bool) (now : Nat) (w : World) (nameQ descQ : Option String) :
    Resp × World :=
  match validateBody nameQ descQ with
  | none => (.validationFailed, w)
  | some (n, d) =>
    let (it, db1) := insertRow w.db n d now
    match rKeys ok w.cache with
    | .error _ => (.serverError, ⟨db1, w.cache⟩)
    | .ok ks =>
      if ks.isEmpty then (.createdOk it, ⟨db1, w.cache⟩)
      else
        match rDelAll ok w.cache ks with
        | .error _ => (.serverError, ⟨db1, w.cache⟩)
        | .ok c1 => (.createdOk it, ⟨db1, c1⟩)

/-- `router.put('/:id')` — update.  The store update commits before the point
and listing invalidations. -/
def updateItem (ok : Bool) (now : Nat) (w : World) (id : Nat)
    (nameQ descQ : Option String) : Resp × World :=
  if id < 1 then (.validationFailed, w)
  else
    match validateBody nameQ descQ with
    | none => (.validationFailed, w)
    | some (n, d) =>
      match updateRow w.db id n d now with
      | (none, _) => (.notFound, w)
      | (some it, db1) =>
        match rDel ok w.cache (itemKey id) with
        | .error _ => (.serverError, ⟨db1, w.cache⟩)
        | .ok c1 =>
          match rKeys ok c1 with
          | .error _ => (.serverError, ⟨db1, c1⟩)
          | .ok ks =>
            if ks.isEmpty then (.updateOk it, ⟨db1, c1⟩)
            else
              match rDelAll ok c1 ks with
              | .error _ => (.serverError, ⟨db1, c1⟩)
              | .ok c2 => (.updateOk it, ⟨db1, c2⟩)

/-- `router.delete('/:id')` — delete.  The store delete commits before the
point and listing invalidations. -/
def deleteItem (ok : Bool) (w : World) (id : Nat) : Resp × World :=
  if id < 1 then (.validationFailed, w)
  else
    match deleteRow w.db id with
    | (none, _) => (.notFound, w)
    | (some it, db1) =>
      match rDel ok w.cache (itemKey id) with
      | .error _ => (.serverError, ⟨db1, w.cache⟩)
      | .ok c1 =>
        match rKeys ok c1 with
        | .error _ => (.serverError, ⟨db1, c1⟩)
        | .ok ks =>
          if ks.isEmpty then (.deleteOk it, ⟨db1, c1⟩)
          else
            match rDelAll ok c1 ks with
            | .error _ => (.serverError, ⟨db1, c1⟩)
            | .ok c2 => (.deleteOk it, ⟨db1, c2⟩)

/-- States reachable from a fresh deployment (empty table, `SERIAL` counter
at 1, empty keyspace) by any interleaving of requests, with arbitrary
per-request cache availability and clock values. -/
inductive Reachable : World → Prop where
  | init : Reachable ⟨⟨[], 1⟩, ⟨[]⟩⟩
  | listStep (ok : Bool) (w : World) (limitQ offsetQ : Option Int) :
      Reachable w → Reachable (getItems ok w limitQ offsetQ).2
  | pointStep (ok : Bool) (w : World) (id : Nat) :
      Reachable w → Reachable (getItemById ok w id).2
  | createStep (ok : Bool) (now : Nat) (w : World) (nameQ descQ : Option String) :
      Reachable w → Reachable (createItem ok now w nameQ descQ).2
  | updateStep (ok : Bool) (now : Nat) (w : World) (id : Nat)
      (nameQ descQ : Option String) :
      Reachable w → Reachable (updateItem ok now w id nameQ descQ).2
  | deleteStep (ok : Bool) (w : World) (id : Nat) :
      Reachable w → Reachable (deleteItem ok w id).2

/-! ### List-level helper lemmas -/

theorem findCongrOn {α : Type} (p q : α → Bool) (l : List α)
    (h : ∀ a ∈ l, p a = q a) : l.find? p = l.find? q := by
  induction l with
  | nil => rfl
  | cons a t ih =>
    have ha := h a (List.mem_cons_self a t)
    have ht := ih (fun b hb => h b (List.mem_cons_of_mem a hb))
    cases hq : q a with
    | true => simp [List.find?, ha, hq]
    | false => simp [List.find?, ha, hq, ht]

theorem findFilterAgree {α : Type} (p q : α → Bool) (l : List α)
    (h : ∀ a ∈ l, p a = true → q a = true) :
    (l.filter q).find? p = l.find? p := by
  rw [List.find?_filter]
  apply findCongrOn
  intro a ha
  cases hp : p a with
  | true => simp [h a ha hp, hp]
  | false => simp [hp]

theorem findFilterNone {α : Type} (p q : α → Bool) (l : List α)
    (h : ∀ a ∈ l, p a = true → q a = false) :
    (l.filter q).find? p = none := by
  rw [List.find?_filter]
  rw [List.find?_eq_none]
  intro a ha hand
  simp only [Bool.and_eq_true, decide_eq_true_eq] at hand
  rw [h a ha hand.2] at hand
  exact Bool.false_ne_true hand.1

theorem isPrefixOfAppendSelf (l r : List Char) : l.isPrefixOf (l ++ r) = true := by
  induction l with
  | nil => simp [List.isPrefixOf]
  | cons a as ih => simp [List.isPrefixOf, ih]

/-! ### Cache-key facts: the listing glob matches exactly the listing keys -/

theorem globListKey (limit offset : Int) :
    matchesListGlob (listKey limit offset) = true := by
  unfold matchesListGlob listKey
  rw [show "items:" ++ toString limit ++ ":" ++ toString offset =
        "items:" ++ (toString limit ++ ":" ++ toString offset) by
      simp [String.append_assoc]]
  rw [String.data_append]
  exact isPrefixOfAppendSelf _ _

theorem globItemKey (id : Nat) : matchesListGlob (itemKey id) = false := by
  unfold matchesListGlob itemKey
  rw [String.data_append]
  show (['i','t','e','m','s',':'].isPrefixOf
    (['i','t','e','m',':'] ++ (toString id).data)) = false
  simp [List.isPrefixOf]

/-! ### Cache keyspace lemmas -/

theorem lookupSetSelf (c : Cache) (k : String) (ttl : Nat) (v : CVal) :
    cacheLookup (cacheSet c k ttl v) k = some v := by
  simp [cacheLookup, cacheSet, List.find?]

theorem lookupSetNe (c : Cache) (k k' : String) (ttl : Nat) (v : CVal)
    (h : k' ≠ k) : cacheLookup (cacheSet c k ttl v) k' = cacheLookup c k' := by
  unfold cacheLookup cacheSet
  have hk : (k == k') = false := by simp [Ne.symm h]
  simp only [List.find?, hk]
  rw [findFilterAgree]
  intro a _ hp
  simp only [beq_iff_eq] at hp
  simp [hp, h]

theorem lookupDelSelf (c : Cache) (k : String) :
    cacheLookup (cacheDel c k) k = none := by
  unfold cacheLookup cacheDel
  rw [findFilterNone]
  intro a _ hp
  simp only [beq_iff_eq] at hp
  simp [hp]

theorem lookupDelNe (c : Cache) (k k' : String) (h : k' ≠ k) :
    cacheLookup (cacheDel c k) k' = cacheLookup c k' := by
  unfold cacheLookup cacheDel
  rw [findFilterAgree]
  intro a _ hp
  simp only [beq_iff_eq] at hp
  simp [hp, h]

theorem memKeysMatching (c : Cache) (k : String) :
    k ∈ cacheKeysMatching c → matchesListGlob k = true := by
  intro hk
  unfold cacheKeysMatching at hk
  rcases List.mem_map.1 hk with ⟨e, he, rfl⟩
  exact (List.mem_filter.1 he).2

theorem lookupDelAllNotMem (c : Cache) (ks : List String) (k : String)
    (h : ¬ k ∈ ks) : cacheLookup (cacheDelAll c ks) k = cacheLookup c k := by
  unfold cacheLookup cacheDelAll
  rw [findFilterAgree]
  intro a _ hp
  simp only [beq_iff_eq] at hp
  simp [hp, h]

theorem lookupDelAllMatching (c : Cache) (k : String)
    (h : matchesListGlob k = true) :
    cacheLookup (cacheDelAll c (cacheKeysMatching c)) k = none := by
  unfold cacheLookup cacheDelAll
  rw [findFilterNone]
  intro a ha hp
  simp only [beq_iff_eq] at hp
  have : a.1 ∈ cacheKeysMatching c := by
    unfold cacheKeysMatching
    exact List.mem_map_of_mem _ (List.mem_filter.2 ⟨ha, by rw [hp]; exact h⟩)
  simp [this]

theorem keysMatchingNilLookup (c : Cache) (k : String)
    (hnil : cacheKeysMatching c = []) (h : matchesListGlob k = true) :
    cacheLookup c k = none := by
  unfold cacheLookup
  rw [show (List.find? (fun e => e.1 == k) c.entries) = none from ?_]
  rw [List.find?_eq_none]
  intro a ha hp
  simp only [beq_iff_eq] at hp
  have : a.1 ∈ cacheKeysMatching c := by
    unfold cacheKeysMatching
    exact List.mem_map_of_mem _ (List.mem_filter.2 ⟨ha, by rw [hp]; exact h⟩)
  rw [hnil] at this
  exact (List.not_mem_nil _ this).elim

theorem memCacheSet (c : Cache) (k : String) (ttl : Nat) (v : CVal)
    (e : String × Nat × CVal) (h : e ∈ (cacheSet c k ttl v).entries) :
    e = (k, ttl, v) ∨ e ∈ c.entries := by
  unfold cacheSet at h
  rcases List.mem_cons.1 h with h1 | h2
  · exact Or.inl h1
  · exact Or.inr (List.mem_filter.1 h2).1

theorem memCacheDel (c : Cache) (k : String) (e : String × Nat × CVal)
    (h : e ∈ (cacheDel c k).entries) : e ∈ c.entries :=
  (List.mem_filter.1 h).1

theorem memCacheDelAll (c : Cache) (ks : List String) (e : String × Nat × CVal)
    (h : e ∈ (cacheDelAll c ks).entries) : e ∈ c.entries :=
  (List.mem_filter.1 h).1

theorem memCacheDelAllOfOrig (c : Cache) (ks : List String)
    (e : String × Nat × CVal) (h : e ∈ c.entries) :
    e ∈ (cacheDelAll c ks).entries ∨ e.1 ∈ ks := by
  by_cases hk : e.1 ∈ ks
  · exact Or.inr hk
  · exact Or.inl (List.mem_filter.2 ⟨h, by simp [hk]⟩)

end ItemsApi

namespace ItemsApi

/-- The ordering contract of a listing page: newest-first by creation
timestamp, ties broken by id ascending. -/
def pageOrd (a b : Item) : Prop :=
  b.created_at < a.created_at ∨ (a.created_at = b.created_at ∧ a.id < b.id)

theorem memInsertByCreated (x y : Item) (l : List Item) :
    y ∈ insertByCreated x l ↔ y = x ∨ y ∈ l := by
  induction l with
  | nil => simp [insertByCreated]
  | cons h t ih =>
    unfold insertByCreated
    by_cases hc : h.created_at ≤ x.created_at
    · simp only [if_pos hc, List.mem_cons]
    · simp only [if_neg hc, List.mem_cons, ih]
      tauto

theorem pairwiseInsertByCreated (x : Item) (l : List Item)
    (hl : l.Pairwise pageOrd) (hid : ∀ y ∈ l, x.id < y.id) :
    (insertByCreated x l).Pairwise pageOrd := by
  induction l with
  | nil => simp [insertByCreated]
  | cons h t ih =>
    rw [List.pairwise_cons] at hl
    obtain ⟨hh, ht⟩ := hl
    unfold insertByCreated
    by_cases hc : h.created_at ≤ x.created_at
    · simp only [if_pos hc]
      rw [List.pairwise_cons]
      refine ⟨?_, List.pairwise_cons.2 ⟨hh, ht⟩⟩
      intro y hy
      rcases List.mem_cons.1 hy with rfl | hyt
      · rcases Nat.lt_or_ge y.created_at x.created_at with hlt | hge
        · exact Or.inl hlt
        · exact Or.inr ⟨Nat.le_antisymm hge hc, hid y (List.mem_cons_self y t)⟩
      · rcases hh y hyt with hlt | ⟨heq, _⟩
        · exact Or.inl (Nat.lt_of_lt_of_le hlt hc)
        · rcases Nat.lt_or_ge y.created_at x.created_at with h1 | h2
          · exact Or.inl h1
          · refine Or.inr ⟨Nat.le_antisymm h2 ?_, hid y (List.mem_cons_of_mem h hyt)⟩
            omega
    · simp only [if_neg hc]
      rw [List.pairwise_cons]
      refine ⟨?_, ih ht (fun y hy => hid y (List.mem_cons_of_mem h hy))⟩
      intro y hy
      rcases (memInsertByCreated x y t).1 hy with rfl | hyt
      · exact Or.inl (by omega)
      · exact hh y hyt

theorem memOrderByCreatedDesc (y : Item) (l : List Item) :
    y ∈ orderByCreatedDesc l ↔ y ∈ l := by
  induction l with
  | nil => simp [orderByCreatedDesc]
  | cons a t ih =>
    unfold orderByCreatedDesc
    rw [memInsertByCreated, ih, List.mem_cons]

theorem pairwiseOrderByCreatedDesc (l : List Item)
    (h : l.Pairwise (fun a b => a.id < b.id)) :
    (orderByCreatedDesc l).Pairwise pageOrd := by
  induction l with
  | nil => simp [orderByCreatedDesc]
  | cons a t ih =>
    rw [List.pairwise_cons] at h
    exact pairwiseInsertByCreated a _ (ih h.2)
      (fun y hy => h.1 y ((memOrderByCreatedDesc y t).1 hy))

theorem selectPageSorted (db : Db) (limit offset : Int) (data : List Item)
    (hids : db.rows.Pairwise (fun a b => a.id < b.id))
    (h : selectPage db limit offset = .ok data) : data.Pairwise pageOrd := by
  unfold selectPage at h
  by_cases hneg : limit < 0 ∨ offset < 0
  · simp [hneg] at h
  · simp only [if_neg hneg, Except.ok.injEq] at h
    subst h
    have hs := pairwiseOrderByCreatedDesc db.rows hids
    have h1 : ((orderByCreatedDesc db.rows).drop offset.toNat).Pairwise pageOrd :=
      hs.sublist (List.drop_sublist _ _)
    exact h1.sublist (List.take_sublist _ _)

end ItemsApi
namespace ItemsApi

/-- Well-formedness of a reachable state: table rows are in strictly
id-ascending insertion order, ids are below the `SERIAL` counter, and every
cached listing page obeys the ordering contract. -/
structure WF (w : World) : Prop where
  idsSorted : w.db.rows.Pairwise (fun a b => a.id < b.id)
  idsBound : ∀ it ∈ w.db.rows, it.id < w.db.nextId
  pagesSorted : ∀ e ∈ w.cache.entries, ∀ cnt data, e.2.2 = CVal.page cnt data →
    data.Pairwise pageOrd

theorem pagesSortedSetPage (c : Cache) (k : String) (ttl cnt : Nat)
    (data : List Item)
    (hc : ∀ e ∈ c.entries, ∀ n d, e.2.2 = CVal.page n d → d.Pairwise pageOrd)
    (hd : data.Pairwise pageOrd) :
    ∀ e ∈ (cacheSet c k ttl (.page cnt data)).entries, ∀ n d,
      e.2.2 = CVal.page n d → d.Pairwise pageOrd := by
  intro e he n d hv
  rcases memCacheSet _ _ _ _ _ he with rfl | hold
  · simp only at hv
    cases hv
    exact hd
  · exact hc e hold n d hv

theorem pagesSortedSetRow (c : Cache) (k : String) (ttl : Nat) (it : Item)
    (hc : ∀ e ∈ c.entries, ∀ n d, e.2.2 = CVal.page n d → d.Pairwise pageOrd) :
    ∀ e ∈ (cacheSet c k ttl (.row it)).entries, ∀ n d,
      e.2.2 = CVal.page n d → d.Pairwise pageOrd := by
  intro e he n d hv
  rcases memCacheSet _ _ _ _ _ he with rfl | hold
  · simp at hv
  · exact hc e hold n d hv

theorem pagesSortedDel (c : Cache) (k : String)
    (hc : ∀ e ∈ c.entries, ∀ n d, e.2.2 = CVal.page n d → d.Pairwise pageOrd) :
    ∀ e ∈ (cacheDel c k).entries, ∀ n d, e.2.2 = CVal.page n d →
      d.Pairwise pageOrd :=
  fun e he => hc e (memCacheDel _ _ _ he)

theorem pagesSortedDelAll (c : Cache) (ks : List String)
    (hc : ∀ e ∈ c.entries, ∀ n d, e.2.2 = CVal.page n d → d.Pairwise pageOrd) :
    ∀ e ∈ (cacheDelAll c ks).entries, ∀ n d, e.2.2 = CVal.page n d →
      d.Pairwise pageOrd :=
  fun e he => hc e (memCacheDelAll _ _ _ he)

theorem wfGetItems (ok : Bool) (w : World) (lq oq : Option Int) (h : WF w) :
    WF (getItems ok w lq oq).2 := by
  cases ok with
  | false => simpa [getItems, rGet] using h
  | true =>
    cases hcl : cacheLookup w.cache (listKey (normLimit lq) (normOffset oq)) with
    | some v =>
      cases v with
      | page cnt data => simpa [getItems, rGet, hcl] using h
      | row it => simpa [getItems, rGet, hcl] using h
    | none =>
      cases hsp : selectPage w.db (normLimit lq) (normOffset oq) with
      | error e => simpa [getItems, rGet, hcl, hsp] using h
      | ok data =>
        have hd := selectPageSorted _ _ _ _ h.idsSorted hsp
        simp only [getItems, rGet, hcl, hsp, rSetEx, if_true]
        exact ⟨h.idsSorted, h.idsBound,
          pagesSortedSetPage _ _ _ _ _ h.pagesSorted hd⟩

theorem wfGetItemById (ok : Bool) (w : World) (id : Nat) (h : WF w) :
    WF (getItemById ok w id).2 := by
  by_cases hid : id < 1
  · simpa [getItemById, hid] using h
  · cases ok with
    | false => simpa [getItemById, hid, rGet] using h
    | true =>
      cases hcl : cacheLookup w.cache (itemKey id) with
      | some v =>
        cases v with
        | page cnt data => simpa [getItemById, hid, rGet, hcl] using h
        | row it => simpa [getItemById, hid, rGet, hcl] using h
      | none =>
        cases hsb : selectById w.db id with
        | none => simpa [getItemById, hid, rGet, hcl, hsb] using h
        | some it =>
          simp only [getItemById, hid, if_false, rGet, if_true, hcl, hsb,
            rSetEx]
          exact ⟨h.idsSorted, h.idsBound,
            pagesSortedSetRow _ _ _ _ h.pagesSorted⟩

theorem idsInsertRow (db : Db) (n : String) (d : Option String) (now : Nat)
    (hs : db.rows.Pairwise (fun a b => a.id < b.id))
    (hb : ∀ it ∈ db.rows, it.id < db.nextId) :
    ((insertRow db n d now).2.rows.Pairwise (fun a b => a.id < b.id)) ∧
      (∀ it ∈ (insertRow db n d now).2.rows,
        it.id < (insertRow db n d now).2.nextId) := by
  constructor
  · unfold insertRow
    rw [List.pairwise_append]
    refine ⟨hs, by simp, ?_⟩
    intro a ha b hb2
    simp only [List.mem_singleton] at hb2
    subst hb2
    exact hb a ha
  · intro it hit
    unfold insertRow at hit ⊢
    simp only [List.mem_append, List.mem_singleton] at hit
    rcases hit with h1 | h2
    · exact Nat.lt_succ_of_lt (hb it h1)
    · subst h2; exact Nat.lt_succ_self _

theorem wfCreateItem (ok : Bool) (now : Nat) (w : World)
    (nameQ descQ : Option String) (h : WF w) :
    WF (createItem ok now w nameQ descQ).2 := by
  cases hv : validateBody nameQ descQ with
  | none => simpa [createItem, hv] using h
  | some nd =>
    obtain ⟨n, d⟩ := nd
    obtain ⟨hs, hb⟩ := idsInsertRow w.db n d now h.idsSorted h.idsBound
    cases ok with
    | false =>
      simp only [createItem, hv, rKeys, if_false]
      exact ⟨hs, hb, h.pagesSorted⟩
    | true =>
      by_cases hke : (cacheKeysMatching w.cache).isEmpty
      · simp only [createItem, hv, rKeys, if_true, hke, if_pos]
        exact ⟨hs, hb, h.pagesSorted⟩
      · simp only [createItem, hv, rKeys, if_true, hke, if_false, rDelAll]
        exact ⟨hs, hb, pagesSortedDelAll _ _ h.pagesSorted⟩


theorem findIdEq (rows : List Item) (id : Nat) (old : Item)
    (hf : rows.find? (fun r => r.id == id) = some old) : old.id = id := by
  have := List.find?_some hf
  simpa [beq_iff_eq] using this

theorem idsUpdateRowMap (rows : List Item) (id : Nat) (it : Item)
    (hit : it.id = id)
    (hs : rows.Pairwise (fun a b => a.id < b.id)) :
    (rows.map (fun r => if r.id = id then it else r)).Pairwise
      (fun a b => a.id < b.id) := by
  rw [List.pairwise_map]
  refine hs.imp ?_
  intro a b hab
  by_cases ha : a.id = id <;> by_cases hb2 : b.id = id <;>
    simp [ha, hb2, hit] <;> omega

theorem wfUpdateItem (ok : Bool) (now : Nat) (w : World) (id : Nat)
    (nameQ descQ : Option String) (h : WF w) :
    WF (updateItem ok now w id nameQ descQ).2 := by
  by_cases hid : id < 1
  · simpa [updateItem, hid] using h
  · cases hv : validateBody nameQ descQ with
    | none => simpa [updateItem, hid, hv] using h
    | some nd =>
      obtain ⟨n, d⟩ := nd
      cases hf : w.db.rows.find? (fun r => r.id == id) with
      | none => simpa [updateItem, hid, hv, updateRow, hf] using h
      | some old =>
        have hoid : old.id = id := findIdEq _ _ _ hf
        have hs : ((w.db.rows.map
            (fun r => if r.id = id then
              (⟨old.id, n, d, old.created_at, now⟩ : Item) else r)).Pairwise
            (fun a b => a.id < b.id)) :=
          idsUpdateRowMap _ _ _ hoid h.idsSorted
        have hb : ∀ it ∈ (w.db.rows.map
            (fun r => if r.id = id then
              (⟨old.id, n, d, old.created_at, now⟩ : Item) else r)),
            it.id < w.db.nextId := by
          intro it hit
          rcases List.mem_map.1 hit with ⟨r, hr, rfl⟩
          by_cases hcase : r.id = id
          · simp only [hcase, if_pos]
            rw [hoid, ← hcase]
            exact h.idsBound r hr
          · simp only [hcase, if_neg, not_false_iff]
            exact h.idsBound r hr
        cases ok with
        | false =>
          simp only [updateItem, hid, if_false, hv, updateRow, hf, rDel]
          exact ⟨hs, hb, h.pagesSorted⟩
        | true =>
          by_cases hke :
              (cacheKeysMatching (cacheDel w.cache (itemKey id))).isEmpty
          · simp only [updateItem, hid, if_false, hv, updateRow, hf, rDel,
              rKeys, if_true, hke, if_pos]
            exact ⟨hs, hb, pagesSortedDel _ _ h.pagesSorted⟩
          · simp only [updateItem, hid, if_false, hv, updateRow, hf, rDel,
              rKeys, if_true, hke, if_false, rDelAll]
            exact ⟨hs, hb,
              pagesSortedDelAll _ _ (pagesSortedDel _ _ h.pagesSorted)⟩

theorem wfDeleteItem (ok : Bool) (w : World) (id : Nat) (h : WF w) :
    WF (deleteItem ok w id).2 := by
  by_cases hid : id < 1
  · simpa [deleteItem, hid] using h
  · cases hf : w.db.rows.find? (fun r => r.id == id) with
    | none => simpa [deleteItem, hid, deleteRow, hf] using h
    | some old =>
      have hs : ((w.db.rows.filter (fun r => ¬ (r.id = id))).Pairwise
          (fun a b => a.id < b.id)) :=
        h.idsSorted.sublist (List.filter_sublist _)
      have hb : ∀ it ∈ w.db.rows.filter (fun r => ¬ (r.id = id)),
          it.id < w.db.nextId :=
        fun it hit => h.idsBound it (List.mem_filter.1 hit).1
      cases ok with
      | false =>
        simp only [deleteItem, hid, if_false, deleteRow, hf, rDel]
        exact ⟨hs, hb, h.pagesSorted⟩
      | true =>
        by_cases hke :
            (cacheKeysMatching (cacheDel w.cache (itemKey id))).isEmpty
        · simp only [deleteItem, hid, if_false, deleteRow, hf, rDel, rKeys,
            if_true, hke, if_pos]
          exact ⟨hs, hb, pagesSortedDel _ _ h.pagesSorted⟩
        · simp only [deleteItem, hid, if_false, deleteRow, hf, rDel, rKeys,
            if_true, hke, if_false, rDelAll]
          exact ⟨hs, hb,
            pagesSortedDelAll _ _ (pagesSortedDel _ _ h.pagesSorted)⟩

theorem reachableWF (w : World) (h : Reachable w) : WF w := by
  induction h with
  | init => exact ⟨List.Pairwise.nil, by simp, by simp⟩
  | listStep ok w lq oq _ ih => exact wfGetItems ok w lq oq ih
  | pointStep ok w id _ ih => exact wfGetItemById ok w id ih
  | createStep ok now w nameQ descQ _ ih => exact wfCreateItem ok now w nameQ descQ ih
  | updateStep ok now w id nameQ descQ _ ih => exact wfUpdateItem ok now w id nameQ descQ ih
  | deleteStep ok w id _ ih => exact wfDeleteItem ok w id ih

end ItemsApi
namespace ItemsApi

/-! ### Concrete states used by witnesses and counterexamples -/

/-- The fresh deployment state: empty table, empty keyspace. -/
def w0 : World := ⟨⟨[], 1⟩, ⟨[]⟩⟩

/-- A sample row. -/
def itemA : Item := ⟨1, "A", some "d1", 5, 5⟩

/-- A state holding exactly the row `itemA`, with an empty cache. -/
def wA : World := ⟨⟨[itemA], 2⟩, ⟨[]⟩⟩

/-- A state with an empty table but a point entry and a listing entry in the
cache. -/
def wC : World :=
  ⟨⟨[], 1⟩, ⟨[(itemKey 1, 300, .row itemA), (listKey 50 0, 60, .page 0 [])]⟩⟩

/-- Claim C7 (confirmed): `create` with a missing, empty, or whitespace-only
name fails with a validation error and leaves both the authoritative store
and the cache exactly as they were (no insert, no invalidation). -/
theorem C7_emptyNameValidation :
    (∀ ok now w descQ, createItem ok now w none descQ = (.validationFailed, w)) ∧
    (∀ ok now w s descQ, jsTrim s = "" →
      createItem ok now w (some s) descQ = (.validationFailed, w)) := by
  constructor
  · intro ok now w descQ
    simp [createItem, validateBody]
  · intro ok now w s descQ h
    simp [createItem, validateBody, h]

/-- Witness for C7 at the whitespace-only name " ". -/
theorem C7_witness :
    createItem true 0 w0 (some " ") none = (.validationFailed, w0) :=
  C7_emptyNameValidation.2 true 0 w0 " " none (by decide)

/-- Claim C4 counterexample: offset = -5 is NOT normalized to 0 — the
effective offset stays -5, and the listing read errors (PostgreSQL rejects
the negative OFFSET) instead of behaving like offset = 0. -/
theorem C4_offsetNotClamped_cex :
    normOffset (some (-5)) = -5 ∧ ¬ normOffset (some (-5)) = 0 ∧
    (getItems true w0 none (some (-5))).1 = .serverError ∧
    (getItems true w0 none (some 0)).1 = .listOk .database 0 [] := by decide

/-- Claim C4 (amended): the limit parameter is normalized to at most 100
(limit = 200 yields 100), but the offset is only defaulted to 0 when the
parameter is missing, unparsable, or 0; a negative offset such as -5 is
passed through unchanged to the store query, which rejects it. -/
theorem C4_amended_normalization :
    (normLimit (some 200) = 100) ∧
    (∀ q, normLimit q ≤ 100) ∧
    (normOffset (some (-5)) = -5) ∧
    (∀ v : Int, ¬ v = 0 → normOffset (some v) = v) ∧
    ((getItems true w0 none (some (-5))).1 = .serverError) := by
  refine ⟨by decide, ?_, by decide, ?_, by decide⟩
  · intro q
    cases q with
    | none => decide
    | some v => exact min_le_right _ _
  · intro v hv
    simp [normOffset, jsOr, hv]

/-- Witness for C4's amended statement at concrete parameters. -/
theorem C4_amended_witness :
    normLimit (some 7) ≤ 100 ∧ normOffset (some 9) = 9 :=
  ⟨C4_amended_normalization.2.1 (some 7),
   C4_amended_normalization.2.2.2.1 9 (by decide)⟩

/-- Claim C1 counterexample: with the store healthy but the cache
unreachable, `create` inserts the row into the authoritative store and then
fails the request with a server error — the write is NOT acknowledged as
successful, even though the store mutation succeeded, refuting the claim
that only authoritative-store errors may produce an error result. -/
theorem C1_cacheFailureFailsRequest_cex :
    (createItem false 0 w0 (some "A") none).1 = .serverError ∧
    (createItem false 0 w0 (some "A") none).2.db.rows =
      [⟨1, "A", none, 0, 0⟩] ∧
    (getItems false w0 none none).1 = .serverError := by decide

/-- Claim C1 (amended): a failing cache-collaborator call fails the whole
request with a server error — a read does not fall back to the store, and a
write whose store mutation already committed is still reported as an error
(the mutation is kept).  Cache errors are not downgraded to cache misses. -/
theorem C1_amended_cacheFailurePropagates :
    (∀ w lq oq, getItems false w lq oq = (.serverError, w)) ∧
    (∀ w id, 1 ≤ id → getItemById false w id = (.serverError, w)) ∧
    (∀ now w nameQ descQ n d, validateBody nameQ descQ = some (n, d) →
      createItem false now w nameQ descQ =
        (.serverError, ⟨(insertRow w.db n d now).2, w.cache⟩)) ∧
    (∀ now w id nameQ descQ n d it db1, 1 ≤ id →
      validateBody nameQ descQ = some (n, d) →
      updateRow w.db id n d now = (some it, db1) →
      updateItem false now w id nameQ descQ = (.serverError, ⟨db1, w.cache⟩)) ∧
    (∀ w id it db1, 1 ≤ id → deleteRow w.db id = (some it, db1) →
      deleteItem false w id = (.serverError, ⟨db1, w.cache⟩)) := by
  refine ⟨?_, ?_, ?_, ?_, ?_⟩
  · intro w lq oq
    simp [getItems, rGet]
  · intro w id h
    simp [getItemById, rGet, Nat.not_lt.2 h]
  · intro now w nameQ descQ n d hv
    simp [createItem, hv, rKeys]
  · intro now w id nameQ descQ n d it db1 h hv hu
    simp [updateItem, rDel, Nat.not_lt.2 h, hv, hu]
  · intro w id it db1 h hd
    simp [deleteItem, rDel, Nat.not_lt.2 h, hd]

/-- Witness for C1's amended statement: each operation run against an
unreachable cache at concrete inputs. -/
theorem C1_amended_witness :
    getItems false w0 none none = (.serverError, w0) ∧
    getItemById false w0 1 = (.serverError, w0) ∧
    createItem false 0 w0 (some "A") none =
      (.serverError, ⟨(insertRow w0.db "A" none 0).2, w0.cache⟩) ∧
    updateItem false 9 wA 1 (some "B") none =
      (.serverError, ⟨⟨[⟨1, "B", none, 5, 9⟩], 2⟩, wA.cache⟩) ∧
    deleteItem false wA 1 = (.serverError, ⟨⟨[], 2⟩, wA.cache⟩) :=
  ⟨C1_amended_cacheFailurePropagates.1 w0 none none,
   C1_amended_cacheFailurePropagates.2.1 w0 1 (by decide),
   C1_amended_cacheFailurePropagates.2.2.1 0 w0 (some "A") none "A" none (by decide),
   C1_amended_cacheFailurePropagates.2.2.2.1 9 wA 1 (some "B") none "B" none
     ⟨1, "B", none, 5, 9⟩ ⟨[⟨1, "B", none, 5, 9⟩], 2⟩ (by decide) (by decide) (by decide),
   C1_amended_cacheFailurePropagates.2.2.2.2 wA 1 itemA ⟨[], 2⟩ (by decide) (by decide)⟩

/-- Claim C9 (confirmed): with zero rows in the store and no cached entry for
the (50, 0) listing key, the first listing read returns count 0, an empty
page, tagged database, and caches that page; the identical second call is
answered from the cache with the same data, tagged cache. -/
theorem C9_emptyListingCached (w : World)
    (hrows : w.db.rows = [])
    (hmiss : cacheLookup w.cache (listKey 50 0) = none) :
    getItems true w (some 50) (some 0) =
      (.listOk .database 0 [],
        ⟨w.db, cacheSet w.cache (listKey 50 0) 60 (.page 0 [])⟩) ∧
    (getItems true
        (getItems true w (some 50) (some 0)).2 (some 50) (some 0)).1 =
      .listOk .cache 0 [] := by
  have hl : normLimit (some 50) = 50 := by decide
  have ho : normOffset (some 0) = 0 := by decide
  have h1 : getItems true w (some 50) (some 0) =
      (.listOk .database 0 [],
        ⟨w.db, cacheSet w.cache (listKey 50 0) 60 (.page 0 [])⟩) := by
    simp [getItems, rGet, hl, ho, hmiss, countAll, hrows, selectPage,
      orderByCreatedDesc, rSetEx]
  refine ⟨h1, ?_⟩
  rw [h1]
  simp [getItems, rGet, hl, ho, lookupSetSelf]

/-- Witness for C9 at the fresh deployment state. -/
theorem C9_witness :
    getItems true w0 (some 50) (some 0) =
      (.listOk .database 0 [],
        ⟨w0.db, cacheSet w0.cache (listKey 50 0) 60 (.page 0 [])⟩) ∧
    (getItems true
        (getItems true w0 (some 50) (some 0)).2 (some 50) (some 0)).1 =
      .listOk .cache 0 [] :=
  C9_emptyListingCached w0 rfl rfl

end ItemsApi
namespace ItemsApi

/-- Claim C6 (confirmed): when the point cache has no entry for the id and
the authoritative store has no matching row, `getById` answers not-found and
leaves the whole state untouched — in particular it writes no cache entry
for that id; and in general every cache entry `getById` ever adds holds a
row that exists in the store under that id's point key. -/
theorem C6_notFoundNotCached :
    (∀ w id, 1 ≤ id → cacheLookup w.cache (itemKey id) = none →
      selectById w.db id = none →
      (getItemById true w id).1 = .notFound ∧
      (∀ ok2, (getItemById ok2 w id).2 = w)) ∧
    (∀ ok w id, ∀ e ∈ ((getItemById ok w id).2).cache.entries,
      e ∈ w.cache.entries ∨
      ∃ it, selectById w.db id = some it ∧ e = (itemKey id, 300, .row it)) := by
  constructor
  · intro w id h1 hmiss hsb
    constructor
    · simp [getItemById, rGet, Nat.not_lt.2 h1, hmiss, hsb]
    · intro ok2
      cases ok2 with
      | false => simp [getItemById, rGet, Nat.not_lt.2 h1]
      | true => simp [getItemById, rGet, Nat.not_lt.2 h1, hmiss, hsb]
  · intro ok w id e he
    by_cases hid : id < 1
    · left; simpa [getItemById, hid] using he
    · cases ok with
      | false => left; simpa [getItemById, hid, rGet] using he
      | true =>
        cases hcl : cacheLookup w.cache (itemKey id) with
        | some v =>
          cases v with
          | page cnt data => left; simpa [getItemById, hid, rGet, hcl] using he
          | row it => left; simpa [getItemById, hid, rGet, hcl] using he
        | none =>
          cases hsb : selectById w.db id with
          | none => left; simpa [getItemById, hid, rGet, hcl, hsb] using he
          | some it =>
            rw [show ((getItemById true w id).2).cache =
                cacheSet w.cache (itemKey id) 300 (.row it) from by
              simp [getItemById, hid, rGet, hcl, hsb, rSetEx]] at he
            rcases memCacheSet _ _ _ _ _ he with rfl | hold
            · right; exact ⟨it, by simp [hsb], rfl⟩
            · left; exact hold

/-- Witness for C6: a missing id on the fresh deployment state. -/
theorem C6_witness :
    (getItemById true w0 1).1 = .notFound ∧ (getItemById true w0 1).2 = w0 :=
  ⟨(C6_notFoundNotCached.1 w0 1 (by decide) rfl rfl).1,
   (C6_notFoundNotCached.1 w0 1 (by decide) rfl rfl).2 true⟩

/-- Claim C3 counterexample: a first point read of an existing row (point
cache empty) succeeds but its response body carries NO provenance tag at
all — in particular it is not tagged database, refuting the claim that both
read operations return a provenance tag. -/
theorem C3_pointReadHasNoTag_cex :
    isSuccess (getItemById true wA 1).1 = true ∧
    respSource (getItemById true wA 1).1 = none ∧
    ¬ respSource (getItemById true wA 1).1 = some .database := by decide

/-- Claim C3 (amended): only the listing read carries a provenance tag —
database when the listing cache missed, cache when it hit; the point read
`getById` returns the bare row with no tag in both branches. -/
theorem C3_amended_provenanceTags :
    (∀ w lq oq s cnt data,
      cacheLookup w.cache (listKey (normLimit lq) (normOffset oq)) = none →
      (getItems true w lq oq).1 = .listOk s cnt data → s = .database) ∧
    (∀ w lq oq cnt data,
      cacheLookup w.cache (listKey (normLimit lq) (normOffset oq)) =
        some (.page cnt data) →
      getItems true w lq oq = (.listOk .cache cnt data, w)) ∧
    (∀ ok w id it, (getItemById ok w id).1 = .itemOk it →
      respSource (getItemById ok w id).1 = none) := by
  refine ⟨?_, ?_, ?_⟩
  · intro w lq oq s cnt data hmiss hr
    cases hsp : selectPage w.db (normLimit lq) (normOffset oq) with
    | error e => simp [getItems, rGet, hmiss, hsp] at hr
    | ok pg =>
      simp [getItems, rGet, hmiss, hsp, rSetEx] at hr
      exact hr.1.symm
  · intro w lq oq cnt data hhit
    simp [getItems, rGet, hhit]
  · intro ok w id it h
    rw [h]
    rfl

/-- Witness for C3's amended statement: the successful point read of `wA`
carries no tag. -/
theorem C3_amended_witness :
    respSource (getItemById true wA 1).1 = none :=
  C3_amended_provenanceTags.2.2 true wA 1 itemA (by decide)

end ItemsApi
namespace ItemsApi

theorem selectByIdUpdateRowMap (rows : List Item) (id : Nat) (old itN : Item)
    (hf : rows.find? (fun r => r.id == id) = some old) (hitN : itN.id = id) :
    (rows.map (fun r => if r.id = id then itN else r)).find?
      (fun r => r.id == id) = some itN := by
  rw [List.find?_map]
  rw [findCongrOn ((fun r => r.id == id) ∘ fun r => if r.id = id then itN else r)
    (fun r => r.id == id) rows ?_]
  · rw [hf]
    have hoid : old.id = id := findIdEq _ _ _ hf
    simp [Function.comp, hoid]
  · intro a _
    by_cases ha : a.id = id <;> simp [Function.comp, ha, hitN]

/-- Claim C2 (confirmed): whenever an update is acknowledged as successful,
the point cache entry for the id and every listing cache entry have already
been removed, and an immediately following point read of the same id either
returns the updated row or fails — it can never serve the pre-update
value. -/
theorem C2_invalidationBeforeAck (now : Nat) (w : World) (id : Nat)
    (nameQ descQ : Option String) (it : Item) (w' : World)
    (h : updateItem true now w id nameQ descQ = (.updateOk it, w')) :
    cacheLookup w'.cache (itemKey id) = none ∧
    (∀ l o : Int, cacheLookup w'.cache (listKey l o) = none) ∧
    (∀ ok2, (getItemById ok2 w' id).1 = .itemOk it ∨
      (getItemById ok2 w' id).1 = .serverError) := by
  by_cases hid : id < 1
  · simp [updateItem, hid] at h
  · cases hv : validateBody nameQ descQ with
    | none => simp [updateItem, hid, hv] at h
    | some nd =>
      obtain ⟨n, d⟩ := nd
      cases hf : w.db.rows.find? (fun r => r.id == id) with
      | none => simp [updateItem, hid, hv, updateRow, hf] at h
      | some old =>
        have hoid : old.id = id := findIdEq _ _ _ hf
        have hsb : (w.db.rows.map
            (fun r => if r.id = id then
              (⟨old.id, n, d, old.created_at, now⟩ : Item) else r)).find?
            (fun r => r.id == id) = some ⟨old.id, n, d, old.created_at, now⟩ :=
          selectByIdUpdateRowMap _ _ _ _ hf hoid
        by_cases hke :
            (cacheKeysMatching (cacheDel w.cache (itemKey id))).isEmpty
        · simp [updateItem, hid, hv, updateRow, hf, rDel, rKeys, hke] at h
          obtain ⟨hitEq, hwEq⟩ := h
          subst hwEq
          subst hitEq
          have ha : cacheLookup (cacheDel w.cache (itemKey id)) (itemKey id) =
              none := lookupDelSelf _ _
          refine ⟨ha, ?_, ?_⟩
          · intro l o
            exact keysMatchingNilLookup _ _ (List.isEmpty_iff.1 hke)
              (globListKey l o)
          · intro ok2
            cases ok2 with
            | false => right; simp [getItemById, hid, rGet]
            | true =>
              left
              have hsb2 : selectById ⟨w.db.rows.map
                  (fun r => if r.id = id then
                    (⟨old.id, n, d, old.created_at, now⟩ : Item) else r),
                  w.db.nextId⟩ id =
                  some ⟨old.id, n, d, old.created_at, now⟩ := hsb
              simp [getItemById, hid, rGet, ha, hsb2, rSetEx]
        · simp [updateItem, hid, hv, updateRow, hf, rDel, rKeys, hke,
            rDelAll] at h
          obtain ⟨hitEq, hwEq⟩ := h
          subst hwEq
          subst hitEq
          have hnm : ¬ itemKey id ∈
              cacheKeysMatching (cacheDel w.cache (itemKey id)) := by
            intro hm
            have := memKeysMatching _ _ hm
            rw [globItemKey] at this
            exact Bool.false_ne_true this
          have ha : cacheLookup
              (cacheDelAll (cacheDel w.cache (itemKey id))
                (cacheKeysMatching (cacheDel w.cache (itemKey id))))
              (itemKey id) = none := by
            rw [lookupDelAllNotMem _ _ _ hnm]
            exact lookupDelSelf _ _
          refine ⟨ha, ?_, ?_⟩
          · intro l o
            exact lookupDelAllMatching _ _ (globListKey l o)
          · intro ok2
            cases ok2 with
            | false => right; simp [getItemById, hid, rGet]
            | true =>
              left
              have hsb2 : selectById ⟨w.db.rows.map
                  (fun r => if r.id = id then
                    (⟨old.id, n, d, old.created_at, now⟩ : Item) else r),
                  w.db.nextId⟩ id =
                  some ⟨old.id, n, d, old.created_at, now⟩ := hsb
              simp [getItemById, hid, rGet, ha, hsb2, rSetEx]

/-- Witness for C2: updating the single row of `wA`. -/
theorem C2_witness :
    (getItemById true
        (⟨⟨[⟨1, "B", none, 5, 9⟩], 2⟩, ⟨[]⟩⟩ : World) 1).1 =
      .itemOk ⟨1, "B", none, 5, 9⟩ ∨
    (getItemById true
        (⟨⟨[⟨1, "B", none, 5, 9⟩], 2⟩, ⟨[]⟩⟩ : World) 1).1 = .serverError :=
  (C2_invalidationBeforeAck 9 wA 1 (some "B") none ⟨1, "B", none, 5, 9⟩
    ⟨⟨[⟨1, "B", none, 5, 9⟩], 2⟩, ⟨[]⟩⟩ (by decide)).2.2 true

end ItemsApi
namespace ItemsApi

/-- Claim C8 (confirmed): a successful delete returns exactly the row the
store held under that id, after which the point entry is gone from the cache
and a point read of the id answers not-found; deleting an id with no
matching row answers not-found and leaves the whole state unchanged. -/
theorem C8_deleteSemantics :
    (∀ w id it w', deleteItem true w id = (.deleteOk it, w') →
      selectById w.db id = some it ∧
      cacheLookup w'.cache (itemKey id) = none ∧
      (getItemById true w' id).1 = .notFound) ∧
    (∀ ok w id, 1 ≤ id → selectById w.db id = none →
      deleteItem ok w id = (.notFound, w)) := by
  constructor
  · intro w id it w' h
    by_cases hid : id < 1
    · simp [deleteItem, hid] at h
    · cases hf : w.db.rows.find? (fun r => r.id == id) with
      | none => simp [deleteItem, hid, deleteRow, hf] at h
      | some old =>
        have hgone : (w.db.rows.filter (fun r => ¬ (r.id = id))).find?
            (fun r => r.id == id) = none := by
          apply findFilterNone
          intro a _ hp
          simp only [beq_iff_eq] at hp
          simp [hp]
        by_cases hke :
            (cacheKeysMatching (cacheDel w.cache (itemKey id))).isEmpty
        · simp [deleteItem, hid, deleteRow, hf, rDel, rKeys, hke] at h
          obtain ⟨hitEq, hwEq⟩ := h
          subst hwEq
          subst hitEq
          have ha : cacheLookup (cacheDel w.cache (itemKey id)) (itemKey id) =
              none := lookupDelSelf _ _
          refine ⟨by simp [selectById, hf], ha, ?_⟩
          have hsb2 : selectById
              ⟨w.db.rows.filter (fun r => !decide (r.id = id)),
                w.db.nextId⟩ id = none := by
            have h2 := hgone
            simp only [decide_not] at h2
            exact h2
          simp [getItemById, hid, rGet, ha, hsb2]
        · simp [deleteItem, hid, deleteRow, hf, rDel, rKeys, hke,
            rDelAll] at h
          obtain ⟨hitEq, hwEq⟩ := h
          subst hwEq
          subst hitEq
          have hnm : ¬ itemKey id ∈
              cacheKeysMatching (cacheDel w.cache (itemKey id)) := by
            intro hm
            have := memKeysMatching _ _ hm
            rw [globItemKey] at this
            exact Bool.false_ne_true this
          have ha : cacheLookup
              (cacheDelAll (cacheDel w.cache (itemKey id))
                (cacheKeysMatching (cacheDel w.cache (itemKey id))))
              (itemKey id) = none := by
            rw [lookupDelAllNotMem _ _ _ hnm]
            exact lookupDelSelf _ _
          refine ⟨by simp [selectById, hf], ha, ?_⟩
          have hsb2 : selectById
              ⟨w.db.rows.filter (fun r => !decide (r.id = id)),
                w.db.nextId⟩ id = none := by
            have h2 := hgone
            simp only [decide_not] at h2
            exact h2
          simp [getItemById, hid, rGet, ha, hsb2]
  · intro ok w id h1 hsb
    unfold selectById at hsb
    simp [deleteItem, Nat.not_lt.2 h1, deleteRow, hsb]

/-- Witness for C8: deleting the single row of `wA`. -/
theorem C8_witness :
    selectById wA.db 1 = some itemA ∧
    cacheLookup (Cache.mk []) (itemKey 1) = none ∧
    (getItemById true (⟨⟨[], 2⟩, ⟨[]⟩⟩ : World) 1).1 = .notFound :=
  C8_deleteSemantics.1 wA 1 itemA ⟨⟨[], 2⟩, ⟨[]⟩⟩ (by decide)

/-- Claim C10 (confirmed): a successful create removes only cache keys
matching the listing glob items:* — the lookup of any non-matching key, in
particular every point key item:<id>, is unchanged; no entry is added, and
every entry removed matched the listing glob. -/
theorem C10_createFrameEffect (now : Nat) (w : World)
    (nameQ descQ : Option String) (it : Item) (w' : World)
    (h : createItem true now w nameQ descQ = (.createdOk it, w')) :
    (∀ k, matchesListGlob k = false →
      cacheLookup w'.cache k = cacheLookup w.cache k) ∧
    (∀ j, cacheLookup w'.cache (itemKey j) = cacheLookup w.cache (itemKey j)) ∧
    (∀ e ∈ w'.cache.entries, e ∈ w.cache.entries) ∧
    (∀ e ∈ w.cache.entries, e ∈ w'.cache.entries ∨
      matchesListGlob e.1 = true) := by
  cases hv : validateBody nameQ descQ with
  | none => simp [createItem, hv] at h
  | some nd =>
    obtain ⟨n, d⟩ := nd
    by_cases hke : (cacheKeysMatching w.cache).isEmpty
    · simp [createItem, hv, rKeys, hke] at h
      obtain ⟨-, hwEq⟩ := h
      subst hwEq
      exact ⟨fun k _ => rfl, fun j => rfl, fun e he => he, fun e he => Or.inl he⟩
    · simp [createItem, hv, rKeys, hke, rDelAll] at h
      obtain ⟨-, hwEq⟩ := h
      subst hwEq
      have hmain : ∀ k, matchesListGlob k = false →
          cacheLookup (cacheDelAll w.cache (cacheKeysMatching w.cache)) k =
          cacheLookup w.cache k := by
        intro k hk
        apply lookupDelAllNotMem
        intro hm
        rw [memKeysMatching _ _ hm] at hk
        simp at hk
      refine ⟨hmain, fun j => hmain _ (globItemKey j), ?_, ?_⟩
      · intro e he
        exact memCacheDelAll _ _ _ he
      · intro e he
        rcases memCacheDelAllOfOrig w.cache (cacheKeysMatching w.cache) e he with
          hin | hks
        · exact Or.inl hin
        · exact Or.inr (memKeysMatching _ _ hks)

/-- Witness for C10: a create against `wC`, whose cache holds one point
entry and one listing entry; the point entry's lookup is unchanged. -/
theorem C10_witness :
    cacheLookup (createItem true 7 wC (some "N") none).2.cache (itemKey 1) =
      cacheLookup wC.cache (itemKey 1) :=
  (C10_createFrameEffect 7 wC (some "N") none ⟨1, "N", none, 7, 7⟩
    (createItem true 7 wC (some "N") none).2 (by decide)).2.1 1

end ItemsApi
namespace ItemsApi

/-- Claim C5 (confirmed): in every reachable state, every page a listing
read returns — whether served from the cache or from the authoritative
store — is ordered newest-first by creation timestamp with ties broken by
id ascending. -/
theorem C5_listingOrdered (w : World) (h : Reachable w) (ok : Bool)
    (lq oq : Option Int) (s : Source) (cnt : Nat) (data : List Item)
    (hr : (getItems ok w lq oq).1 = .listOk s cnt data) :
    data.Pairwise pageOrd := by
  have hwf := reachableWF w h
  cases ok with
  | false => simp [getItems, rGet] at hr
  | true =>
    cases hcl : cacheLookup w.cache (listKey (normLimit lq) (normOffset oq)) with
    | some v =>
      cases v with
      | page c d =>
        have hsorted : d.Pairwise pageOrd := by
          unfold cacheLookup at hcl
          cases hfind : w.cache.entries.find?
              (fun e => e.1 == listKey (normLimit lq) (normOffset oq)) with
          | none => rw [hfind] at hcl; simp at hcl
          | some e =>
            rw [hfind] at hcl
            simp only [Option.some.injEq] at hcl
            exact hwf.pagesSorted e (List.mem_of_find?_eq_some hfind) c d hcl
        simp [getItems, rGet, hcl] at hr
        obtain ⟨-, -, hd⟩ := hr
        exact hd ▸ hsorted
      | row it => simp [getItems, rGet, hcl] at hr
    | none =>
      cases hsp : selectPage w.db (normLimit lq) (normOffset oq) with
      | error e => simp [getItems, rGet, hcl, hsp] at hr
      | ok pg =>
        simp [getItems, rGet, hcl, hsp, rSetEx] at hr
        obtain ⟨-, -, hd⟩ := hr
        exact hd ▸ selectPageSorted _ _ _ _ hwf.idsSorted hsp

/-- Witness for C5: the listing read at the reachable fresh deployment
state returns the (trivially ordered) empty page. -/
theorem C5_witness : List.Pairwise pageOrd ([] : List Item) :=
  C5_listingOrdered ⟨⟨[], 1⟩, ⟨[]⟩⟩ Reachable.init true none none
    .database 0 [] (by decide)

end ItemsApi
